import Mathlib

/-!
Shallow embedding of the prediction-cache client logic of
src/tikr-mobile/src/services/predictions.js (the Prediction Cache Manager of
the specification).

Modelling conventions:
* JavaScript numbers are modelled as exact rationals (ℚ); the real-valued
  confidence computation (which takes a square root) is modelled over ℝ.
  Division is Lean-total (x / 0 = 0).
* `Number.prototype.toFixed(2)` followed by `parseFloat` is modelled by
  `round2`: round half towards +∞ to two decimals, matching the ECMAScript
  toFixed rule "if two candidates are equally near, pick the larger".
* Promise rejection / thrown errors are modelled with `Except` / `Option`;
  a `try { … } catch { … }` block becomes an explicit match on the result.
* The Firestore document store and the remote prediction API are external
  collaborators; they enter as explicit function arguments
  (`cache : String → CacheEntry`, `remote : String → Option α`).
* Timestamps are epoch milliseconds (ℤ); `new Date()` is the explicit
  `now` argument threaded through the functions.
-/

namespace TIKR

/-- `parseFloat(q.toFixed(2))` on an exact rational: round to 2 decimals,
half towards the larger value, as the ECMAScript `toFixed` spec does. -/
def round2 (q : ℚ) : ℚ := (round (q * 100) : ℚ) / 100

/-- The same 2-decimal rounding on ℝ (used for the confidence field). -/
noncomputable def round2R (x : ℝ) : ℝ := ((round (x * 100) : ℤ) : ℝ) / 100

/-- Arithmetic mean `xs.reduce((sum, val) => sum + val, 0) / xs.length`. -/
def meanOf (xs : List ℚ) : ℚ := xs.sum / xs.length

/-- `xs.reduce((sum, val) => sum + Math.pow(val - mean, 2), 0) / xs.length`
(population variance, as in predictions.js lines 342-343). -/
def varianceOf (xs : List ℚ) : ℚ :=
  (xs.map (fun v => (v - meanOf xs) ^ 2)).sum / xs.length

/-- `stdDev / mean` — the normalized standard deviation of
predictions.js line 347 (`Math.sqrt(variance)` divided by the mean). -/
noncomputable def nsdOf (xs : List ℚ) : ℝ :=
  Real.sqrt ((varianceOf xs : ℚ) : ℝ) / ((meanOf xs : ℚ) : ℝ)

/-- Confidence computation of predictions.js lines 338-349: default 0.5,
and for more than one prediction `Math.max(0.3, Math.min(0.95, 1 - normalizedStdDev * 10))`.
`none` models NaN.  The division `stdDev / mean` of line 347 follows IEEE
arithmetic, so the zero-mean cases are spelled out: with `stdDev = 0` and
`mean = 0` (an all-zero sequence) it is NaN, which `Math.min` and `Math.max`
propagate, so the whole expression is NaN; with `stdDev > 0` and `mean = 0`
it is +Infinity (the mean, a sum of the elements starting from +0 divided by
the positive length, is +0), so `1 - Infinity * 10 = -Infinity` and the
clamp yields 0.3.  With a nonzero mean the expression is the finite clamp,
which `nsdOf` renders faithfully. -/
noncomputable def confidenceOf (xs : List ℚ) : Option ℝ :=
  if 1 < xs.length then
    if meanOf xs = 0 then
      if varianceOf xs = 0 then none
      else some 0.3
    else some (max 0.3 (min 0.95 (1 - nsdOf xs * 10)))
  else some 0.5

/-- A JSON value as it can appear inside the API's `predictions` array.
A string is represented by the result of its JavaScript numeric coercion
(`.jstr (some q)` is a string with `Number(s) = q`, `.jstr none` a string
such as "bad" whose coercion is NaN). -/
inductive JSVal : Type
  | jnum (q : ℚ)
  | jstr (numval : Option ℚ)
  | jarr (elems : List JSVal)
  | jnull

/-- JavaScript `Number(p)` on a `JSVal`, with `none` standing for NaN:
numbers coerce to themselves, a string to its numeric parse (NaN if it does
not parse), `null` to 0, `[]` to 0 (via the empty string), a one-element
array to the coercion of its element (via `toString`), and an array of two
or more elements to NaN (its `toString` contains a comma). -/
def jsToNumber : JSVal → Option ℚ
  | .jnum q => some q
  | .jstr v => v
  | .jnull => some 0
  | .jarr [] => some 0
  | .jarr [x] => jsToNumber x
  | .jarr (_ :: _ :: _) => none

/-- `Array.isArray(p) && p.length > 0 ? p[0] : p` (predictions.js line 310). -/
def flattenFirst : JSVal → JSVal
  | .jarr (x :: _) => x
  | .jarr [] => .jarr []
  | .jnum q => .jnum q
  | .jstr v => .jstr v
  | .jnull => .jnull

/-- Lines 308-311: the nested-array flattening pass, applied only when the
first element of the predictions array is itself an array. -/
def flattenStep (ps : List JSVal) : List JSVal :=
  match ps with
  | .jarr _ :: _ => ps.map flattenFirst
  | _ => ps

/-- Modelled from the spec's words, for comparison with `flattenStep`
(claim C7): "each element may itself be a 1-element sequence, which must be
flattened" — replace every one-element nested sequence by its sole element. -/
def specFlattenOne (ps : List JSVal) : List JSVal :=
  ps.map (fun p => match p with | .jarr [x] => x | q => q)

/-- Lines 322-325: `const num = Number(p); return isNaN(num) ? currentPrice : num`. -/
def numericPredictions (ps : List JSVal) (currentPrice : ℚ) : List ℚ :=
  ps.map (fun p => (jsToNumber p).getD currentPrice)

/-- The prediction object constructed by `fetchStockPrediction`
(predictions.js lines 352-365).  `recommendation` is `true` for 'buy'.
`confidence` is `Option ℝ` because the stored value can be NaN (modelled as
`none`): `parseFloat(NaN.toFixed(2))` is NaN again.  The `volume` and
`marketCap` fields are omitted: no claim concerns them. -/
structure PredictionObject where
  ticker : String
  name : String
  currentPrice : ℚ
  predictedPrice : ℚ
  confidence : Option ℝ
  lastUpdated : ℤ
  change : ℚ
  recommendation : Bool
  rawPredictions : List ℚ

/-- The numeric core of `fetchStockPrediction` (lines 304-365), given the
predictions array extracted from the API response and the already-resolved
current price (the resolution of `current_price` from the response body,
lines 288-302, is the caller's input here).  Mirrors the source:
flatten one level if the first element is an array, coerce every element to
a number falling back to the current price, average, derive change,
recommendation and confidence, and round the stored fields to 2 decimals. -/
noncomputable def fetchStockPredictionCore (tkr companyName : String) (now : ℤ)
    (apiPreds : List JSVal) (currentPrice : ℚ) : PredictionObject :=
  let predictions := flattenStep apiPreds
  let numeric := numericPredictions predictions currentPrice
  let avgPrediction : ℚ :=
    if 0 < numeric.length then numeric.sum / numeric.length else currentPrice
  let change : ℚ := ((avgPrediction - currentPrice) / currentPrice) * 100
  { ticker := tkr
    name := companyName
    currentPrice := round2 currentPrice
    predictedPrice := round2 avgPrediction
    confidence := (confidenceOf numeric).map round2R
    lastUpdated := now
    change := round2 change
    recommendation := decide (0 < change)
    rawPredictions := numeric }

/-- `fetchStockPrediction` with its emptiness guard (lines 316-319): the
function throws — `none` here — when the predictions array is empty. -/
noncomputable def fetchStockPredictionM (tkr companyName : String) (now : ℤ)
    (apiPreds : List JSVal) (currentPrice : ℚ) : Option PredictionObject :=
  if (flattenStep apiPreds).length = 0 then none
  else some (fetchStockPredictionCore tkr companyName now apiPreds currentPrice)

/-- The shapes the stored `lastUpdated` field can take (predictions.js
lines 106-124): a Firestore Timestamp (has `toDate`), an ISO string (its
parsed epoch-milliseconds value), an object with a `seconds` field, or
anything else (`tsUnknown`). -/
inductive LastUpdatedVal : Type
  | tsNative (ms : ℤ)
  | tsString (ms : ℤ)
  | tsSecondsObj (s : ℤ)
  | tsUnknown
deriving DecidableEq

/-- Lines 106-124: parse `predictionData.lastUpdated`.  An absent field is
`new Date(0)`; an unknown shape defaults to the current date; a `seconds`
object is used only when `seconds` is truthy (nonzero). -/
def parseLastUpdated (now : ℤ) : Option LastUpdatedVal → ℤ
  | some (.tsNative ms) => ms
  | some (.tsString ms) => ms
  | some (.tsSecondsObj s) => if s ≠ 0 then s * 1000 else now
  | some .tsUnknown => now
  | none => 0

/-- Lines 127-129: `hoursElapsed = (now - lastUpdated) / (1000*60*60)` and
the freshness test `hoursElapsed < CACHE_EXPIRY_HOURS` (24). -/
def cacheStillValid (now lastUpdated : ℤ) : Bool :=
  decide ((((now - lastUpdated : ℤ) : ℚ)) / (1000 * 60 * 60) < 24)

/-- A stored prediction document as read back from Firestore.  Only the
fields the cache-read path touches are modelled; `confidence` is optional
because the source applies the default `predictionData.confidence || 0.5`. -/
structure StoredDoc where
  lastUpdated : Option LastUpdatedVal
  currentPrice : ℚ
  predictedPrice : ℚ
  change : ℚ
  confidence : Option ℚ
deriving DecidableEq

/-- The outcome of `getDoc` for one ticker: document absent, document
present, a permission-denied error, or any other error. -/
inductive CacheEntry : Type
  | missing
  | doc (d : StoredDoc)
  | errPerm
  | errOther
deriving DecidableEq

/-- The "clean prediction object" built from a cached document
(lines 131-139).  `parseFloat` of an already-numeric field is the identity;
`predictionData.confidence || 0.5` maps a falsy (absent or zero) confidence
to 0.5. -/
structure CachedPrediction where
  ticker : String
  currentPrice : ℚ
  predictedPrice : ℚ
  change : ℚ
  confidence : ℚ
  lastUpdated : ℤ
deriving DecidableEq

def cleanPrediction (tkr : String) (d : StoredDoc) (lu : ℤ) : CachedPrediction :=
  { ticker := tkr
    currentPrice := d.currentPrice
    predictedPrice := d.predictedPrice
    change := d.change
    confidence := match d.confidence with
      | some c => if c = 0 then 1 / 2 else c
      | none => 1 / 2
    lastUpdated := lu }

/-- The per-ticker loop of `fetchCachedPredictions` (lines 98-157).
`none` models the `break` on a permission error followed by `return []`
(line 159-162): the whole read is discarded, including records already
collected.  A missing document or a non-permission error just skips the
ticker. -/
def fetchCachedCore (now : ℤ) (cache : String → CacheEntry) :
    List String → Option (List CachedPrediction)
  | [] => some []
  | t :: ts =>
    match cache t with
    | .errPerm => none
    | .missing => fetchCachedCore now cache ts
    | .errOther => fetchCachedCore now cache ts
    | .doc d =>
      let lu := parseLastUpdated now d.lastUpdated
      if cacheStillValid now lu then
        (fetchCachedCore now cache ts).map (fun r => cleanPrediction t d lu :: r)
      else
        fetchCachedCore now cache ts

/-- `fetchCachedPredictions` (lines 92-169): the permission-error path and
the outer catch both produce the empty array. -/
def fetchCachedPredictions (now : ℤ) (cache : String → CacheEntry)
    (tickers : List String) : List CachedPrediction :=
  (fetchCachedCore now cache tickers).getD []

/-- `fetchAndStorePredictions` (lines 176-209), record-content-agnostic:
`remote t = none` models a throwing `fetchStockPrediction`.  Returns the
operation's outcome together with the list of tickers for which a remote
fetch was attempted (every ticker, exactly once, in order).  The Firestore
write (`storePrediction`) only toggles a logged flag and is not modelled. -/
def fetchAndStorePredictions {α : Type} (remote : String → Option α)
    (tickers : List String) : Except Unit (List α) × List String :=
  let predictions := tickers.filterMap remote
  (if predictions.isEmpty then Except.error () else Except.ok predictions, tickers)

/-- A record in the result of the batch operation: either a clean cached
prediction or a freshly fetched one (in JavaScript both are plain objects;
the sum only records which code path produced the record). -/
def BatchRec (α : Type) : Type := CachedPrediction ⊕ α

/-- The body of `fetchLatestPredictions` (lines 26-79) before its outer
catch.  Second component: the tickers for which a remote fetch was
attempted.  The unused `limitCount` parameter is omitted; the hard-coded
`validTickers` list is the `tickers` argument. -/
def fetchLatestCore {α : Type} (now : ℤ) (cache : String → CacheEntry)
    (remote : String → Option α) (tickers : List String) (forceRefresh : Bool) :
    Except Unit (List (BatchRec α)) × List String :=
  if forceRefresh then
    let r := fetchAndStorePredictions remote tickers
    (r.1.map (List.map Sum.inr), r.2)
  else
    let cached := fetchCachedPredictions now cache tickers
    if 0 < cached.length then
      if cached.length = tickers.length then
        (Except.ok (cached.map Sum.inl), [])
      else
        let cachedTickers := cached.map (fun p => p.ticker)
        let missingTickers := tickers.filter (fun t => !(cachedTickers.contains t))
        let apiPredictions := missingTickers.filterMap remote
        (Except.ok (cached.map Sum.inl ++ apiPredictions.map Sum.inr), missingTickers)
    else
      let r := fetchAndStorePredictions remote tickers
      (r.1.map (List.map Sum.inr), r.2)

/-- `fetchLatestPredictions` (lines 26-85): the outer catch (lines 80-84)
turns every error into a normal return of the empty array. -/
def fetchLatestPredictions {α : Type} (now : ℤ) (cache : String → CacheEntry)
    (remote : String → Option α) (tickers : List String) (forceRefresh : Bool) :
    Except Unit (List (BatchRec α)) × List String :=
  let r := fetchLatestCore now cache remote tickers forceRefresh
  (match r.1 with
   | Except.error _ => Except.ok []
   | Except.ok l => Except.ok l, r.2)

/-- Project the returned record list out of a non-raising result. -/
def okList {ε α : Type} : Except ε (List α) → List α
  | Except.ok l => l
  | Except.error _ => []

/-- A user document; only the `watchlist` field matters to the claims
(absent models a document created without one, read back with
`userData.watchlist || []`). -/
structure UserDoc where
  watchlist : Option (List String)
deriving DecidableEq

/-- Point update of the user store (`setDoc(doc(db, 'users', userId), …)`). -/
def setUser (store : String → Option UserDoc) (uid : String) (d : UserDoc) :
    String → Option UserDoc :=
  fun x => if x = uid then some d else store x

/-- `addToWatchlist` (lines 386-431).  An empty `userId` models the falsy
guard `if (!userId)`.  Returns the updated store and the boolean result. -/
def addToWatchlist (store : String → Option UserDoc) (userId ticker : String) :
    (String → Option UserDoc) × Bool :=
  if userId = "" then (store, false)
  else
    match store userId with
    | none => (setUser store userId { watchlist := some [ticker] }, true)
    | some u =>
      let watchlist := u.watchlist.getD []
      if watchlist.contains ticker then (store, true)
      else (setUser store userId { watchlist := some (watchlist ++ [ticker]) }, true)

/-- `fetchWatchlist` (lines 487-509). -/
def fetchWatchlist (store : String → Option UserDoc) (userId : String) :
    List String :=
  if userId = "" then []
  else
    match store userId with
    | none => []
    | some u => u.watchlist.getD []

/-! ### Helper lemmas -/

lemma round2_eq_of (q : ℚ) (n : ℤ) (h1 : (n : ℚ) ≤ q * 100 + 1 / 2)
    (h2 : q * 100 + 1 / 2 < n + 1) : round2 q = (n : ℚ) / 100 := by
  have h : round (q * 100) = n := by
    rw [round_eq]; exact Int.floor_eq_iff.mpr ⟨h1, by exact_mod_cast h2⟩
  rw [round2, h]

lemma flattenStep_length (ps : List JSVal) : (flattenStep ps).length = ps.length := by
  cases ps with
  | nil => rfl
  | cons p rest => cases p <;> simp [flattenStep]

lemma numericPredictions_length (ps : List JSVal) (cp : ℚ) :
    (numericPredictions ps cp).length = ps.length := by
  simp [numericPredictions]

lemma jsToNumber_singleton (x : JSVal) :
    jsToNumber (JSVal.jarr [x]) = jsToNumber x := rfl

/-- `specFlattenOne` does not change any element's numeric coercion. -/
lemma numericPredictions_specFlattenOne (ps : List JSVal) (cp : ℚ) :
    numericPredictions (specFlattenOne ps) cp = numericPredictions ps cp := by
  simp only [numericPredictions, specFlattenOne, List.map_map]
  refine List.map_congr_left ?_
  intro a _
  cases a with
  | jarr xs =>
    cases xs with
    | nil => rfl
    | cons x tail => cases tail <;> rfl
  | jnum q => rfl
  | jstr v => rfl
  | jnull => rfl

/-- When every nested element is a one-element array, the flattening pass of
the source does not change any element's numeric coercion either. -/
lemma numericPredictions_flattenStep (ps : List JSVal) (cp : ℚ)
    (h : ∀ xs, JSVal.jarr xs ∈ ps → xs.length = 1) :
    numericPredictions (flattenStep ps) cp = numericPredictions ps cp := by
  cases hps : ps with
  | nil => rfl
  | cons p rest =>
    cases p with
    | jarr ys =>
      simp only [flattenStep, numericPredictions, List.map_map]
      refine List.map_congr_left ?_
      intro a ha
      cases a with
      | jarr xs =>
        have hx : xs.length = 1 := h xs (hps ▸ ha)
        cases xs with
        | nil => simp at hx
        | cons x tail =>
          cases tail with
          | nil => rfl
          | cons y tail2 => simp at hx
      | jnum q => rfl
      | jstr v => rfl
      | jnull => rfl
    | jnum q => rfl
    | jstr v => rfl
    | jnull => rfl

/-! ### Claims C3, C4, C6, C7, C10 -/

/-- Claim C3 (confirmed): for every forecast sequence with at least one
element, the record produced by `fetchStockPrediction` has `predictedPrice`
equal to the arithmetic mean of its stored `rawPredictions`, rounded to two
decimal places. -/
theorem claim_C3 (tkr cn : String) (now : ℤ) (ps : List JSVal) (cp : ℚ)
    (h : ps ≠ []) :
    (fetchStockPredictionCore tkr cn now ps cp).predictedPrice
      = round2 (meanOf ((fetchStockPredictionCore tkr cn now ps cp).rawPredictions)) := by
  have hlen : 0 < (numericPredictions (flattenStep ps) cp).length := by
    rw [numericPredictions_length, flattenStep_length]
    exact List.length_pos.mpr h
  simp only [fetchStockPredictionCore, meanOf, if_pos hlen]

/-- Witness for claim C3 at the one-element sequence `[100]`. -/
theorem claim_C3_witness :
    ([JSVal.jnum 100] : List JSVal) ≠ []
    ∧ (fetchStockPredictionCore "AAPL" "Apple Inc." 0 [JSVal.jnum 100] 100).predictedPrice
        = round2 (meanOf ((fetchStockPredictionCore "AAPL" "Apple Inc." 0
            [JSVal.jnum 100] 100).rawPredictions)) :=
  ⟨List.cons_ne_nil _ _,
   claim_C3 "AAPL" "Apple Inc." 0 [JSVal.jnum 100] 100 (List.cons_ne_nil _ _)⟩

/-- Claim C4 counterexample: for the forecast sequence `[1.004]` with current
price 1, the code's `change` is `0.4` (computed from the unrounded mean),
while the claim's formula — using the 2-decimal-rounded `predictedPrice`,
which is 1 here — gives `0`. -/
theorem claim_C4_counterexample :
    (fetchStockPredictionCore "AAPL" "Apple Inc." 0 [JSVal.jnum (251 / 250)] 1).change = 2 / 5
    ∧ round2 (((fetchStockPredictionCore "AAPL" "Apple Inc." 0
          [JSVal.jnum (251 / 250)] 1).predictedPrice - 1) / 1 * 100) = 0
    ∧ (2 / 5 : ℚ) ≠ 0 := by
  have hnum : numericPredictions (flattenStep [JSVal.jnum (251 / 250)]) 1 = [251 / 250] := by
    simp [numericPredictions, flattenStep, jsToNumber]
  have hchange : (fetchStockPredictionCore "AAPL" "Apple Inc." 0
      [JSVal.jnum (251 / 250)] 1).change = round2 (2 / 5) := by
    simp only [fetchStockPredictionCore, hnum]
    norm_num
  have hpp : (fetchStockPredictionCore "AAPL" "Apple Inc." 0
      [JSVal.jnum (251 / 250)] 1).predictedPrice = round2 (251 / 250) := by
    simp only [fetchStockPredictionCore, hnum]
    norm_num
  refine ⟨?_, ?_, by norm_num⟩
  · rw [hchange, round2_eq_of (2 / 5) 40 (by norm_num) (by norm_num)]
    norm_num
  · rw [hpp, round2_eq_of (251 / 250) 100 (by norm_num) (by norm_num)]
    rw [show ((((100 : ℤ) : ℚ)) / 100 - 1) / 1 * 100 = (0 : ℚ) by norm_num]
    rw [round2_eq_of 0 0 (by norm_num) (by norm_num)]
    norm_num

/-- Claim C4 as amended (proved): the record's `change` equals
`round((m - currentPrice) / currentPrice * 100, 2)` where `m` is the
*unrounded* arithmetic mean of the stored `rawPredictions` (the source
computes the percentage from the raw average before any rounding). -/
theorem claim_C4_amended (tkr cn : String) (now : ℤ) (ps : List JSVal) (cp : ℚ)
    (h : ps ≠ []) (_hcp : 0 < cp) :
    (fetchStockPredictionCore tkr cn now ps cp).change
      = round2 ((meanOf ((fetchStockPredictionCore tkr cn now ps cp).rawPredictions) - cp)
          / cp * 100) := by
  have hlen : 0 < (numericPredictions (flattenStep ps) cp).length := by
    rw [numericPredictions_length, flattenStep_length]
    exact List.length_pos.mpr h
  simp only [fetchStockPredictionCore, meanOf, if_pos hlen]

/-- Witness for the amended claim C4 at `[1]` with current price 1. -/
theorem claim_C4_amended_witness :
    ([JSVal.jnum 1] : List JSVal) ≠ [] ∧ (0 : ℚ) < 1
    ∧ (fetchStockPredictionCore "AAPL" "Apple Inc." 0 [JSVal.jnum 1] 1).change
        = round2 ((meanOf ((fetchStockPredictionCore "AAPL" "Apple Inc." 0
            [JSVal.jnum 1] 1).rawPredictions) - 1) / 1 * 100) :=
  ⟨List.cons_ne_nil _ _, by norm_num,
   claim_C4_amended "AAPL" "Apple Inc." 0 [JSVal.jnum 1] 1 (List.cons_ne_nil _ _) (by norm_num)⟩

/-- Claim C6 counterexample: a `null` element of the forecast sequence is a
non-numeric element, yet the code keeps its JavaScript coercion `0` instead
of replacing it with the current price: `[101.2, null, 103.5]` with current
price 100 normalizes to `[101.2, 0, 103.5]`, and `0 ≠ 100`. -/
theorem claim_C6_counterexample :
    (fetchStockPredictionCore "AAPL" "Apple Inc." 0
        [JSVal.jnum (506 / 5), JSVal.jnull, JSVal.jnum (207 / 2)] 100).rawPredictions
      = [506 / 5, 0, 207 / 2]
    ∧ (0 : ℚ) ≠ 100 := by
  constructor
  · simp [fetchStockPredictionCore, numericPredictions, flattenStep, jsToNumber]
  · norm_num

/-- Claim C6 as amended (proved): `fetchStockPrediction` replaces exactly
those elements whose JavaScript numeric coercion is NaN (e.g. a non-numeric
string) with the resolved current price; every other element — including
`null`, which JavaScript coerces to 0 — is kept at its coerced value. -/
theorem claim_C6_amended (ps : List JSVal) (cp : ℚ) (i : ℕ) (hi : i < ps.length) :
    (jsToNumber (ps.getD i JSVal.jnull) = none → (numericPredictions ps cp).getD i 0 = cp)
    ∧ (∀ q : ℚ, jsToNumber (ps.getD i JSVal.jnull) = some q
        → (numericPredictions ps cp).getD i 0 = q) := by
  have hlen : i < (numericPredictions ps cp).length := by
    rw [numericPredictions_length]; exact hi
  rw [List.getD_eq_getElem _ _ hi, List.getD_eq_getElem _ _ hlen]
  constructor
  · intro hnone
    simp only [numericPredictions, List.getElem_map, hnone, Option.getD_none]
  · intro q hq
    simp only [numericPredictions, List.getElem_map, hq, Option.getD_some]

/-- Witness for the amended claim C6: in `[101.2, "bad", 103.5]` with current
price 100, the non-numeric string at index 1 is replaced by 100. -/
theorem claim_C6_amended_witness :
    (1 : ℕ) < ([JSVal.jnum (506 / 5), JSVal.jstr none, JSVal.jnum (207 / 2)] : List JSVal).length
    ∧ jsToNumber (([JSVal.jnum (506 / 5), JSVal.jstr none,
        JSVal.jnum (207 / 2)] : List JSVal).getD 1 JSVal.jnull) = none
    ∧ (numericPredictions [JSVal.jnum (506 / 5), JSVal.jstr none,
        JSVal.jnum (207 / 2)] 100).getD 1 0 = 100 :=
  ⟨by norm_num, rfl,
   (claim_C6_amended [JSVal.jnum (506 / 5), JSVal.jstr none, JSVal.jnum (207 / 2)]
     100 1 (by norm_num)).1 rfl⟩

/-- Claim C7 (confirmed): when every nested element of the predictions
payload is a one-element sequence, the numeric sequence the code computes
(flattening pass followed by coercion) coincides with the coercion of the
payload with each one-element nested sequence flattened one level. -/
theorem claim_C7 (ps : List JSVal) (cp : ℚ)
    (h : ∀ xs, JSVal.jarr xs ∈ ps → xs.length = 1) :
    numericPredictions (flattenStep ps) cp = numericPredictions (specFlattenOne ps) cp := by
  rw [numericPredictions_specFlattenOne, numericPredictions_flattenStep ps cp h]

/-- Witness for claim C7 at the payload `[[101.2], [102.0], 103.1]`, which
flattens to `[101.2, 102.0, 103.1]`. -/
theorem claim_C7_witness :
    (∀ xs, JSVal.jarr xs ∈ ([JSVal.jarr [JSVal.jnum (506 / 5)], JSVal.jarr [JSVal.jnum 102],
        JSVal.jnum (1031 / 10)] : List JSVal) → xs.length = 1)
    ∧ numericPredictions (flattenStep [JSVal.jarr [JSVal.jnum (506 / 5)],
        JSVal.jarr [JSVal.jnum 102], JSVal.jnum (1031 / 10)]) 0
      = numericPredictions (specFlattenOne [JSVal.jarr [JSVal.jnum (506 / 5)],
        JSVal.jarr [JSVal.jnum 102], JSVal.jnum (1031 / 10)]) 0
    ∧ flattenStep [JSVal.jarr [JSVal.jnum (506 / 5)], JSVal.jarr [JSVal.jnum 102],
        JSVal.jnum (1031 / 10)]
      = [JSVal.jnum (506 / 5), JSVal.jnum 102, JSVal.jnum (1031 / 10)] := by
  have hsing : ∀ xs, JSVal.jarr xs ∈ ([JSVal.jarr [JSVal.jnum (506 / 5)],
      JSVal.jarr [JSVal.jnum 102], JSVal.jnum (1031 / 10)] : List JSVal) → xs.length = 1 := by
    intro xs hxs
    simp only [List.mem_cons, List.not_mem_nil, or_false] at hxs
    rcases hxs with h | h | h
    · injection h with h2; subst h2; rfl
    · injection h with h2; subst h2; rfl
    · exact JSVal.noConfusion h
  exact ⟨hsing, claim_C7 _ 0 hsing, rfl⟩

/-- Claim C10 (confirmed): a present `lastUpdated` of unrecognized shape is
parsed as the current time, so the cached record is always classified as
fresh and served from the cache, regardless of its true age. -/
theorem claim_C10 (now : ℤ) (t : String) (d : StoredDoc)
    (h : d.lastUpdated = some LastUpdatedVal.tsUnknown) :
    parseLastUpdated now d.lastUpdated = now
    ∧ cacheStillValid now (parseLastUpdated now d.lastUpdated) = true
    ∧ fetchCachedPredictions now (fun _ => CacheEntry.doc d) [t]
        = [cleanPrediction t d now] := by
  have hparse : parseLastUpdated now d.lastUpdated = now := by
    rw [h]; rfl
  have hvalid : cacheStillValid now now = true := by
    simp [cacheStillValid]
  refine ⟨hparse, by rw [hparse]; exact hvalid, ?_⟩
  simp [fetchCachedPredictions, fetchCachedCore, hparse, hvalid]

/-! ### Claims C1, C8, C9 -/

/-- Claim C1 counterexample: with a non-empty request (`["AAPL"]`), an empty
cache and a remote fetch that fails for every ticker, `fetchLatestPredictions`
does not raise: its outer catch converts the inner failure into a normal
return of the empty list. -/
theorem claim_C1_counterexample :
    (["AAPL"] : List String) ≠ []
    ∧ (["AAPL"] : List String).filterMap (fun _ => (none : Option ℚ)) = []
    ∧ (fetchLatestPredictions (α := ℚ) 0 (fun _ => CacheEntry.missing) (fun _ => none)
        ["AAPL"] false).1 = Except.ok []
    ∧ (fetchLatestPredictions (α := ℚ) 0 (fun _ => CacheEntry.missing) (fun _ => none)
        ["AAPL"] false).1 ≠ Except.error () := by
  refine ⟨by simp, rfl, rfl, ?_⟩
  intro h
  exact Except.noConfusion
    (show Except.ok ([] : List (BatchRec ℚ)) = Except.error () from h)

/-- Claim C1 as amended (proved): the inner batch helper
`fetchAndStorePredictions` raises exactly when zero usable records result,
but the top-level `fetchLatestPredictions` catches that error and returns the
empty list instead of raising; it never raises, and (with `forceRefresh`
false) returns the empty list precisely when the cache yields nothing and
every remote fetch fails. -/
theorem claim_C1_amended {α : Type} (cache : String → CacheEntry)
    (remote : String → Option α) (now : ℤ) (tickers : List String)
    (hne : tickers ≠ []) :
    ((fetchAndStorePredictions remote tickers).1 = Except.error ()
        ↔ tickers.filterMap remote = [])
    ∧ (fetchLatestPredictions now cache remote tickers false).1 ≠ Except.error ()
    ∧ ((fetchLatestPredictions now cache remote tickers false).1 = Except.ok []
        ↔ (fetchCachedPredictions now cache tickers = []
            ∧ tickers.filterMap remote = [])) := by
  refine ⟨?_, ?_, ?_⟩
  · by_cases hf : tickers.filterMap remote = [] <;>
      simp [fetchAndStorePredictions, List.isEmpty_iff, hf]
  · cases hcore : (fetchLatestCore now cache remote tickers false).1 <;>
      simp [fetchLatestPredictions, hcore]
  · by_cases hc : fetchCachedPredictions now cache tickers = []
    · by_cases hf : tickers.filterMap remote = [] <;>
        simp [fetchLatestPredictions, fetchLatestCore, fetchAndStorePredictions,
          Except.map, List.isEmpty_iff, hc, hf]
    · have h0 : 0 < (fetchCachedPredictions now cache tickers).length :=
        List.length_pos.mpr hc
      have h0t : 0 < tickers.length := List.length_pos.mpr hne
      by_cases hlen : (fetchCachedPredictions now cache tickers).length = tickers.length <;>
        simp [fetchLatestPredictions, fetchLatestCore, Except.map, h0, h0t, hlen, hc]

/-- Witness for the amended claim C1 at a concrete environment: one ticker,
an empty cache, a failing remote fetch. -/
theorem claim_C1_amended_witness :
    (["AAPL"] : List String) ≠ []
    ∧ ((fetchAndStorePredictions (α := ℚ) (fun _ => none) ["AAPL"]).1 = Except.error ()
        ↔ (["AAPL"] : List String).filterMap (fun _ => (none : Option ℚ)) = [])
    ∧ (fetchLatestPredictions (α := ℚ) 7 (fun _ => CacheEntry.missing) (fun _ => none)
        ["AAPL"] false).1 ≠ Except.error () :=
  ⟨List.cons_ne_nil _ _,
   (claim_C1_amended (fun _ => CacheEntry.missing) (fun _ => none) 7 ["AAPL"]
     (List.cons_ne_nil _ _)).1,
   (claim_C1_amended (fun _ => CacheEntry.missing) (fun _ => none) 7 ["AAPL"]
     (List.cons_ne_nil _ _)).2.1⟩

/-- If any ticker of the batch hits a permission error, the whole cache read
comes back `none` (the `break` followed by `return []`). -/
lemma fetchCachedCore_eq_none (now : ℤ) (cache : String → CacheEntry) :
    ∀ ts : List String, (∃ t ∈ ts, cache t = CacheEntry.errPerm) →
      fetchCachedCore now cache ts = none := by
  intro ts
  induction ts with
  | nil => rintro ⟨t, ht, _⟩; exact absurd ht (List.not_mem_nil t)
  | cons s rest ih =>
    rintro ⟨t, ht, hperm⟩
    rcases List.mem_cons.mp ht with rfl | htr
    · simp [fetchCachedCore, hperm]
    · cases hcs : cache s with
      | errPerm => simp [fetchCachedCore, hcs]
      | missing => simpa [fetchCachedCore, hcs] using ih ⟨t, htr, hperm⟩
      | errOther => simpa [fetchCachedCore, hcs] using ih ⟨t, htr, hperm⟩
      | doc d => simp [fetchCachedCore, hcs, ih ⟨t, htr, hperm⟩]

/-- Claim C8 (confirmed): a permission failure on the cache read of any
ticker in the batch makes the whole cache read unavailable — no cached
record is trusted, including ones read before the failure — and every
requested ticker is fetched remotely. -/
theorem claim_C8 {α : Type} (cache : String → CacheEntry)
    (remote : String → Option α) (now : ℤ) (tickers : List String)
    (h : ∃ t ∈ tickers, cache t = CacheEntry.errPerm) :
    fetchCachedPredictions now cache tickers = []
    ∧ (fetchLatestPredictions now cache remote tickers false).2 = tickers
    ∧ okList (fetchLatestPredictions now cache remote tickers false).1
        = (tickers.filterMap remote).map Sum.inr := by
  have hnone := fetchCachedCore_eq_none now cache tickers h
  have hcp : fetchCachedPredictions now cache tickers = [] := by
    simp [fetchCachedPredictions, hnone]
  refine ⟨hcp, ?_, ?_⟩
  · simp [fetchLatestPredictions, fetchLatestCore, hcp, fetchAndStorePredictions]
  · by_cases hf : tickers.filterMap remote = [] <;>
      simp [fetchLatestPredictions, fetchLatestCore, fetchAndStorePredictions,
        Except.map, okList, List.isEmpty_iff, hcp, hf]

/-- Witness for claim C8: a cache that always signals a permission error;
the single requested ticker is fetched remotely. -/
theorem claim_C8_witness :
    (∃ t ∈ (["AAPL"] : List String), (fun _ => CacheEntry.errPerm) t = CacheEntry.errPerm)
    ∧ (fetchLatestPredictions (α := ℚ) 0 (fun _ => CacheEntry.errPerm)
        (fun _ => some (1 : ℚ)) ["AAPL"] false).2 = ["AAPL"] :=
  ⟨⟨"AAPL", List.mem_singleton.mpr rfl, rfl⟩,
   (claim_C8 (fun _ => CacheEntry.errPerm) (fun _ => some (1 : ℚ)) 0 ["AAPL"]
     ⟨"AAPL", List.mem_singleton.mpr rfl, rfl⟩).2.1⟩

/-! ### Claim C2 -/

/-- The outcome of the cache read for one ticker, when no permission error
interferes: the clean record if a document exists and is still fresh,
nothing otherwise. -/
def cacheHit (now : ℤ) (cache : String → CacheEntry) (t : String) :
    Option CachedPrediction :=
  match cache t with
  | CacheEntry.doc d =>
    if cacheStillValid now (parseLastUpdated now d.lastUpdated) then
      some (cleanPrediction t d (parseLastUpdated now d.lastUpdated))
    else none
  | _ => none

/-- Without permission errors, the cache read collects exactly the fresh
documents, in ticker order. -/
lemma fetchCachedCore_eq_filterMap (now : ℤ) (cache : String → CacheEntry) :
    ∀ ts : List String, (∀ s ∈ ts, cache s ≠ CacheEntry.errPerm) →
      fetchCachedCore now cache ts = some (ts.filterMap (cacheHit now cache)) := by
  intro ts
  induction ts with
  | nil => intro _; rfl
  | cons s rest ih =>
    intro h
    have hs := h s (List.mem_cons_self s rest)
    have hrest : ∀ x ∈ rest, cache x ≠ CacheEntry.errPerm :=
      fun x hx => h x (List.mem_cons_of_mem s hx)
    cases hcs : cache s with
    | errPerm => exact absurd hcs hs
    | missing =>
      simp [fetchCachedCore, hcs, List.filterMap_cons, cacheHit, ih hrest]
    | errOther =>
      simp [fetchCachedCore, hcs, List.filterMap_cons, cacheHit, ih hrest]
    | doc d =>
      by_cases hv : cacheStillValid now (parseLastUpdated now d.lastUpdated) = true
      · simp [fetchCachedCore, hcs, List.filterMap_cons, cacheHit, hv, ih hrest]
      · simp [fetchCachedCore, hcs, List.filterMap_cons, cacheHit, hv, ih hrest]

/-- A cache hit for ticker `s` carries ticker `s`. -/
lemma cacheHit_ticker (now : ℤ) (cache : String → CacheEntry) (s : String)
    (p : CachedPrediction) (h : cacheHit now cache s = some p) : p.ticker = s := by
  cases hcs : cache s with
  | doc d =>
    simp only [cacheHit, hcs] at h
    by_cases hv : cacheStillValid now (parseLastUpdated now d.lastUpdated) = true
    · rw [if_pos hv] at h
      cases h
      rfl
    · rw [if_neg hv] at h
      exact Option.noConfusion h
  | missing => simp only [cacheHit, hcs] at h; exact Option.noConfusion h
  | errPerm => simp only [cacheHit, hcs] at h; exact Option.noConfusion h
  | errOther => simp only [cacheHit, hcs] at h; exact Option.noConfusion h

/-- A ticker with no cache hit does not appear among the tickers of the
collected cached records. -/
lemma not_mem_cached_tickers (now : ℤ) (cache : String → CacheEntry)
    (ts : List String) (t : String) (hnone : cacheHit now cache t = none) :
    t ∉ (ts.filterMap (cacheHit now cache)).map (fun p => p.ticker) := by
  intro hmem
  rcases List.mem_map.mp hmem with ⟨p, hp, hpt⟩
  rcases List.mem_filterMap.mp hp with ⟨s, _hs, hsp⟩
  have hts : p.ticker = s := cacheHit_ticker now cache s p hsp
  rw [hts] at hpt
  rw [hpt] at hsp
  rw [hsp] at hnone
  exact Option.noConfusion hnone

/-- A ticker with a cache hit appears among the tickers of the collected
cached records. -/
lemma mem_cached_tickers (now : ℤ) (cache : String → CacheEntry)
    (ts : List String) (t : String) (p : CachedPrediction) (hm : t ∈ ts)
    (hsome : cacheHit now cache t = some p) :
    t ∈ (ts.filterMap (cacheHit now cache)).map (fun p => p.ticker) :=
  List.mem_map.mpr ⟨p, List.mem_filterMap.mpr ⟨t, hm, hsome⟩,
    cacheHit_ticker now cache t p hsome⟩

/-- If `filterMap` loses no elements, the function was defined on every
member. -/
lemma filterMap_full {α β : Type} (f : α → Option β) :
    ∀ l : List α, (l.filterMap f).length = l.length → ∀ a ∈ l, f a ≠ none := by
  intro l
  induction l with
  | nil => intro _ a ha; exact absurd ha (List.not_mem_nil a)
  | cons x xs ih =>
    intro hlen a ha
    cases hfx : f x with
    | none =>
      exfalso
      have h1 : (List.filterMap f (x :: xs)).length = (List.filterMap f xs).length := by
        rw [List.filterMap_cons, hfx]
      have h2 := List.length_filterMap_le f xs
      rw [h1, List.length_cons] at hlen
      omega
    | some b =>
      rcases List.mem_cons.mp ha with rfl | hmem
      · rw [hfx]; simp
      · refine ih ?_ a hmem
        have h1 : (List.filterMap f (x :: xs)).length
            = (List.filterMap f xs).length + 1 := by
          rw [List.filterMap_cons, hfx, List.length_cons]
        rw [h1, List.length_cons] at hlen
        omega

/-- Branch of `fetchLatestPredictions` where every requested ticker was
served from the cache. -/
lemma fetchLatest_full {α : Type} (now : ℤ) (cache : String → CacheEntry)
    (remote : String → Option α) (tickers : List String)
    (h0 : 0 < (fetchCachedPredictions now cache tickers).length)
    (hlen : (fetchCachedPredictions now cache tickers).length = tickers.length) :
    fetchLatestPredictions now cache remote tickers false
      = (Except.ok ((fetchCachedPredictions now cache tickers).map Sum.inl),
          ([] : List String)) := by
  have h0t : 0 < tickers.length := hlen ▸ h0
  simp [fetchLatestPredictions, fetchLatestCore, h0, h0t, hlen]

/-- Branch of `fetchLatestPredictions` with a partial cache: the missing
tickers are fetched remotely and appended. -/
lemma fetchLatest_mixed {α : Type} (now : ℤ) (cache : String → CacheEntry)
    (remote : String → Option α) (tickers : List String)
    (h0 : 0 < (fetchCachedPredictions now cache tickers).length)
    (hlen : ¬(fetchCachedPredictions now cache tickers).length = tickers.length) :
    fetchLatestPredictions now cache remote tickers false
      = (Except.ok ((fetchCachedPredictions now cache tickers).map Sum.inl
            ++ ((tickers.filter (fun t =>
                  !(((fetchCachedPredictions now cache tickers).map
                      (fun p => p.ticker)).contains t))).filterMap remote).map Sum.inr),
          tickers.filter (fun t =>
            !(((fetchCachedPredictions now cache tickers).map
                (fun p => p.ticker)).contains t))) := by
  simp [fetchLatestPredictions, fetchLatestCore, h0, hlen]

/-- Branch of `fetchLatestPredictions` with an empty cache result: every
ticker goes through `fetchAndStorePredictions`. -/
lemma fetchLatest_nocache_snd {α : Type} (now : ℤ) (cache : String → CacheEntry)
    (remote : String → Option α) (tickers : List String)
    (hc : fetchCachedPredictions now cache tickers = []) :
    (fetchLatestPredictions now cache remote tickers false).2 = tickers := by
  simp [fetchLatestPredictions, fetchLatestCore, hc, fetchAndStorePredictions]

/-- Claim C2 (confirmed): with `forceRefresh = false`, distinct requested
tickers and no permission failure on the cache read, a ticker with a stored
document is served from the cache with no remote fetch exactly when
`now - lastUpdated` is under 24 hours; a ticker whose document is absent or
stale gets exactly one remote fetch attempt. -/
theorem claim_C2 {α : Type} (cache : String → CacheEntry)
    (remote : String → Option α) (now : ℤ) (tickers : List String) (t : String)
    (d : StoredDoc) (hnd : tickers.Nodup) (ht : t ∈ tickers)
    (hperm : ∀ s ∈ tickers, cache s ≠ CacheEntry.errPerm) :
    (cache t = CacheEntry.doc d →
      cacheStillValid now (parseLastUpdated now d.lastUpdated) = true →
        t ∉ (fetchLatestPredictions now cache remote tickers false).2
        ∧ Sum.inl (cleanPrediction t d (parseLastUpdated now d.lastUpdated))
            ∈ okList (fetchLatestPredictions now cache remote tickers false).1)
    ∧ ((cache t = CacheEntry.missing
          ∨ (cache t = CacheEntry.doc d
              ∧ cacheStillValid now (parseLastUpdated now d.lastUpdated) = false)) →
        ((fetchLatestPredictions now cache remote tickers false).2).count t = 1) := by
  have hcached : fetchCachedPredictions now cache tickers
      = tickers.filterMap (cacheHit now cache) := by
    simp [fetchCachedPredictions, fetchCachedCore_eq_filterMap now cache tickers hperm]
  constructor
  · intro hdoc hvalid
    have hhit : cacheHit now cache t
        = some (cleanPrediction t d (parseLastUpdated now d.lastUpdated)) := by
      simp only [cacheHit, hdoc]
      rw [if_pos hvalid]
    have hmemL : cleanPrediction t d (parseLastUpdated now d.lastUpdated)
        ∈ tickers.filterMap (cacheHit now cache) :=
      List.mem_filterMap.mpr ⟨t, ht, hhit⟩
    have h0 : 0 < (fetchCachedPredictions now cache tickers).length := by
      rw [hcached]
      exact List.length_pos.mpr (List.ne_nil_of_mem hmemL)
    by_cases hlen : (fetchCachedPredictions now cache tickers).length = tickers.length
    · rw [fetchLatest_full now cache remote tickers h0 hlen]
      refine ⟨List.not_mem_nil t, ?_⟩
      simp only [okList]
      exact List.mem_map.mpr ⟨_, hcached ▸ hmemL, rfl⟩
    · rw [fetchLatest_mixed now cache remote tickers h0 hlen]
      constructor
      · intro hmem
        have hcont := (List.mem_filter.mp hmem).2
        have htick : t ∈ ((fetchCachedPredictions now cache tickers).map
            (fun p => p.ticker)) := by
          rw [hcached]
          exact mem_cached_tickers now cache tickers t _ ht hhit
        rw [Bool.not_eq_true', ← Bool.not_eq_true] at hcont
        exact hcont (List.elem_iff.mpr htick)
      · simp only [okList]
        exact List.mem_append_left _ (List.mem_map.mpr ⟨_, hcached ▸ hmemL, rfl⟩)
  · intro hor
    have hhitnone : cacheHit now cache t = none := by
      rcases hor with hmiss | ⟨hdoc, hinv⟩
      · simp only [cacheHit, hmiss]
      · simp only [cacheHit, hdoc, hinv, Bool.false_eq_true, if_false]
    by_cases hc : fetchCachedPredictions now cache tickers = []
    · rw [fetchLatest_nocache_snd now cache remote tickers hc]
      exact List.count_eq_one_of_mem hnd ht
    · have h0 : 0 < (fetchCachedPredictions now cache tickers).length :=
        List.length_pos.mpr hc
      by_cases hlen : (fetchCachedPredictions now cache tickers).length = tickers.length
      · exfalso
        have hfull := filterMap_full (cacheHit now cache) tickers (by rw [← hcached]; exact hlen)
        exact hfull t ht hhitnone
      · rw [fetchLatest_mixed now cache remote tickers h0 hlen]
        have htnot : t ∉ ((fetchCachedPredictions now cache tickers).map
            (fun p => p.ticker)) := by
          rw [hcached]
          exact not_mem_cached_tickers now cache tickers t hhitnone
        have hcontf : (((fetchCachedPredictions now cache tickers).map
            (fun p => p.ticker)).contains t) = false := by
          cases hb : (((fetchCachedPredictions now cache tickers).map
              (fun p => p.ticker)).contains t)
          · rfl
          · exact absurd (List.elem_iff.mp hb) htnot
        have htm : t ∈ tickers.filter (fun s =>
            !(((fetchCachedPredictions now cache tickers).map
                (fun p => p.ticker)).contains s)) :=
          List.mem_filter.mpr ⟨ht, by rw [hcontf]; rfl⟩
        exact List.count_eq_one_of_mem (hnd.filter _) htm

/-- Witness for claim C2: two tickers, both with fresh cached documents;
the first is served from the cache and not fetched. -/
theorem claim_C2_witness :
    (["AAPL", "MSFT"] : List String).Nodup
    ∧ ("AAPL" : String) ∈ (["AAPL", "MSFT"] : List String)
    ∧ (∀ s ∈ (["AAPL", "MSFT"] : List String),
        (fun _ => CacheEntry.doc (StoredDoc.mk (some (LastUpdatedVal.tsNative 500)) 10 11 1
          (some (1 / 2)))) s ≠ CacheEntry.errPerm)
    ∧ ((fun _ => CacheEntry.doc (StoredDoc.mk (some (LastUpdatedVal.tsNative 500)) 10 11 1
          (some (1 / 2)))) "AAPL"
        = CacheEntry.doc (StoredDoc.mk (some (LastUpdatedVal.tsNative 500)) 10 11 1
          (some (1 / 2))))
    ∧ cacheStillValid 1000 (parseLastUpdated 1000
        (StoredDoc.mk (some (LastUpdatedVal.tsNative 500)) 10 11 1
          (some (1 / 2))).lastUpdated) = true
    ∧ ("AAPL" : String) ∉ (fetchLatestPredictions (α := ℚ) 1000
        (fun _ => CacheEntry.doc (StoredDoc.mk (some (LastUpdatedVal.tsNative 500)) 10 11 1
          (some (1 / 2)))) (fun _ => some (7 : ℚ)) ["AAPL", "MSFT"] false).2 := by
  have hvalid : cacheStillValid 1000 (parseLastUpdated 1000
      (StoredDoc.mk (some (LastUpdatedVal.tsNative 500)) 10 11 1
        (some (1 / 2))).lastUpdated) = true := by
    norm_num [cacheStillValid, parseLastUpdated]
  have hperm : ∀ s ∈ (["AAPL", "MSFT"] : List String),
      (fun _ => CacheEntry.doc (StoredDoc.mk (some (LastUpdatedVal.tsNative 500)) 10 11 1
        (some (1 / 2)))) s ≠ CacheEntry.errPerm :=
    fun s _ h => CacheEntry.noConfusion h
  refine ⟨by decide, by decide, hperm, rfl, hvalid, ?_⟩
  exact ((claim_C2 (fun _ => CacheEntry.doc (StoredDoc.mk
      (some (LastUpdatedVal.tsNative 500)) 10 11 1 (some (1 / 2))))
    (fun _ => some (7 : ℚ)) 1000 ["AAPL", "MSFT"] "AAPL"
    (StoredDoc.mk (some (LastUpdatedVal.tsNative 500)) 10 11 1 (some (1 / 2)))
    (by decide) (by decide) hperm).1 rfl hvalid).1

/-! ### Claim C5 -/

lemma round2R_eq_of (x : ℝ) (n : ℤ) (h1 : (n : ℝ) ≤ x * 100 + 1 / 2)
    (h2 : x * 100 + 1 / 2 < n + 1) : round2R x = (n : ℝ) / 100 := by
  have h : round (x * 100) = n := by
    rw [round_eq]; exact Int.floor_eq_iff.mpr ⟨h1, by exact_mod_cast h2⟩
  rw [round2R, h]

lemma round2R_mono {x y : ℝ} (h : x ≤ y) : round2R x ≤ round2R y := by
  unfold round2R
  have hr : round (x * 100) ≤ round (y * 100) := by
    rw [round_eq, round_eq]
    exact Int.floor_mono (by linarith)
  exact (div_le_div_iff_of_pos_right (by norm_num)).mpr (Int.cast_le.mpr hr)

lemma confidenceOf_range (xs : List ℚ) (c : ℝ) (h : confidenceOf xs = some c) :
    (0.3 : ℝ) ≤ c ∧ c ≤ 0.95 := by
  unfold confidenceOf at h
  split_ifs at h with h1 h2 h3
  all_goals
    first
      | exact Option.noConfusion h
      | (cases h; norm_num)

/-- Claim C5 as amended (proved): whenever the confidence stored by
`fetchStockPrediction` is an actual number (not the NaN produced by an
all-zero sequence of two or more elements), it lies in [0.30, 0.95]; and
among forecast sequences with at least two elements, nonzero mean and equal
means, a larger normalized standard deviation never yields a strictly
higher numeric confidence.  (Both restrictions are forced: `[0, 0]` stores
NaN, and a single-element sequence receives the fixed default 0.5, below
the 0.95 a barely-dispersed longer sequence receives.) -/
theorem claim_C5_amended :
    (∀ (tkr cn : String) (now : ℤ) (ps : List JSVal) (cp : ℚ) (c : ℝ),
        (fetchStockPredictionCore tkr cn now ps cp).confidence = some c →
          (0.3 : ℝ) ≤ c ∧ c ≤ 0.95)
    ∧ (∀ (xs ys : List ℚ) (cx cy : ℝ), 2 ≤ xs.length → 2 ≤ ys.length →
        meanOf xs ≠ 0 → meanOf xs = meanOf ys → nsdOf xs ≤ nsdOf ys →
        confidenceOf xs = some cx → confidenceOf ys = some cy → cy ≤ cx) := by
  constructor
  · intro tkr cn now ps cp c hc
    have hconf : (fetchStockPredictionCore tkr cn now ps cp).confidence
        = (confidenceOf (numericPredictions (flattenStep ps) cp)).map round2R := by
      simp only [fetchStockPredictionCore]
    rw [hconf] at hc
    cases hc0 : confidenceOf (numericPredictions (flattenStep ps) cp) with
    | none => rw [hc0] at hc; exact Option.noConfusion hc
    | some c0 =>
      rw [hc0, Option.map_some'] at hc
      cases hc
      obtain ⟨hlo, hhi⟩ := confidenceOf_range _ c0 hc0
      have h03 : round2R 0.3 = (0.3 : ℝ) := by
        rw [round2R_eq_of 0.3 30 (by norm_num) (by norm_num)]; norm_num
      have h95 : round2R 0.95 = (0.95 : ℝ) := by
        rw [round2R_eq_of 0.95 95 (by norm_num) (by norm_num)]; norm_num
      exact ⟨h03 ▸ round2R_mono hlo, h95 ▸ round2R_mono hhi⟩
  · intro xs ys cx cy hx hy hmx hmean hnsd hcx hcy
    have hmy : meanOf ys ≠ 0 := hmean ▸ hmx
    unfold confidenceOf at hcx hcy
    rw [if_pos (show 1 < xs.length by omega), if_neg hmx] at hcx
    rw [if_pos (show 1 < ys.length by omega), if_neg hmy] at hcy
    cases hcx
    cases hcy
    refine max_le_max le_rfl (min_le_min le_rfl ?_)
    have h10 : nsdOf xs * 10 ≤ nsdOf ys * 10 :=
      mul_le_mul_of_nonneg_right hnsd (by norm_num)
    linarith

/-- Witness for the amended claim C5 at concrete inputs: a numeric stored
confidence for the sequence `[100]`, and the monotonicity comparison at the
two-element sequence `[1, 2]` of mean 1.5. -/
theorem claim_C5_amended_witness :
    (fetchStockPredictionCore "AAPL" "Apple Inc." 0 [JSVal.jnum 100] 100).confidence
        = some (round2R (1 / 2))
    ∧ ((0.3 : ℝ) ≤ round2R (1 / 2) ∧ round2R (1 / 2) ≤ 0.95)
    ∧ (2 : ℕ) ≤ ([1, 2] : List ℚ).length
    ∧ meanOf ([1, 2] : List ℚ) ≠ 0
    ∧ confidenceOf ([1, 2] : List ℚ)
        = some (max 0.3 (min 0.95 (1 - nsdOf [1, 2] * 10)))
    ∧ max 0.3 (min 0.95 (1 - nsdOf ([1, 2] : List ℚ) * 10))
        ≤ max 0.3 (min 0.95 (1 - nsdOf ([1, 2] : List ℚ) * 10)) := by
  have hm0 : meanOf ([1, 2] : List ℚ) ≠ 0 := by norm_num [meanOf]
  have hc12 : confidenceOf ([1, 2] : List ℚ)
      = some (max 0.3 (min 0.95 (1 - nsdOf [1, 2] * 10))) := by
    unfold confidenceOf
    rw [if_pos (by norm_num), if_neg hm0]
  have hnum : numericPredictions (flattenStep [JSVal.jnum 100]) 100 = [100] := by
    simp [numericPredictions, flattenStep, jsToNumber]
  have hc100 : confidenceOf ([100] : List ℚ) = some (1 / 2) := by
    unfold confidenceOf
    rw [if_neg (by norm_num)]
    norm_num
  have hcw : (fetchStockPredictionCore "AAPL" "Apple Inc." 0
      [JSVal.jnum 100] 100).confidence = some (round2R (1 / 2)) := by
    simp only [fetchStockPredictionCore, hnum, hc100, Option.map_some']
  exact ⟨hcw,
    claim_C5_amended.1 "AAPL" "Apple Inc." 0 [JSVal.jnum 100] 100 (round2R (1 / 2)) hcw,
    by norm_num, hm0, hc12,
    claim_C5_amended.2 [1, 2] [1, 2] _ _ (by norm_num) (by norm_num) hm0 rfl le_rfl
      hc12 hc12⟩

/-- Claim C5 counterexample, refuting both parts of the claim as stated.
Range: for the all-zero sequence `[0, 0]` the source computes
`stdDev / mean = 0 / 0 = NaN` and `Math.min` / `Math.max` propagate it, so
the stored confidence is NaN (`none` in the model) — not a value in
[0.30, 0.95].  Monotonicity: `[100]` and `[99.9, 100.1]` have equal mean
100; the second has the strictly larger normalized standard deviation
(0.001 against 0), yet receives the strictly higher confidence (0.95
against the single-element default 0.5). -/
theorem claim_C5_counterexample :
    (fetchStockPredictionCore "AAPL" "Apple Inc." 0
        [JSVal.jnum 0, JSVal.jnum 0] 100).confidence = none
    ∧ meanOf [100] = meanOf [999 / 10, 1001 / 10]
    ∧ nsdOf [100] < nsdOf [999 / 10, 1001 / 10]
    ∧ (fetchStockPredictionCore "AAPL" "Apple Inc." 0
        [JSVal.jnum 100] 100).confidence = some (0.5 : ℝ)
    ∧ (fetchStockPredictionCore "AAPL" "Apple Inc." 0
        [JSVal.jnum (999 / 10), JSVal.jnum (1001 / 10)] 100).confidence
        = some (0.95 : ℝ)
    ∧ (0.5 : ℝ) < 0.95 := by
  have hnum0 : numericPredictions (flattenStep [JSVal.jnum 0, JSVal.jnum 0]) 100
      = [0, 0] := by
    simp [numericPredictions, flattenStep, jsToNumber]
  have hmz : meanOf ([0, 0] : List ℚ) = 0 := by norm_num [meanOf]
  have hvz : varianceOf ([0, 0] : List ℚ) = 0 := by norm_num [varianceOf, meanOf]
  have hcz : confidenceOf ([0, 0] : List ℚ) = none := by
    unfold confidenceOf
    rw [if_pos (by norm_num), if_pos hmz, if_pos hvz]
  have hcf0 : (fetchStockPredictionCore "AAPL" "Apple Inc." 0
      [JSVal.jnum 0, JSVal.jnum 0] 100).confidence = none := by
    simp only [fetchStockPredictionCore, hnum0, hcz, Option.map_none']
  have hm1 : meanOf [100] = 100 := by norm_num [meanOf]
  have hm2 : meanOf [999 / 10, 1001 / 10] = 100 := by norm_num [meanOf]
  have hv1 : varianceOf [100] = 0 := by norm_num [varianceOf, meanOf]
  have hv2 : varianceOf [999 / 10, 1001 / 10] = 1 / 100 := by
    norm_num [varianceOf, meanOf]
  have hn1 : nsdOf [100] = 0 := by
    rw [nsdOf, hv1]
    push_cast
    rw [Real.sqrt_zero, zero_div]
  have hsqrt : Real.sqrt (1 / 100) = 1 / 10 := by
    rw [show (1 : ℝ) / 100 = (1 / 10) ^ 2 by norm_num, Real.sqrt_sq (by norm_num)]
  have hn2 : nsdOf [999 / 10, 1001 / 10] = 1 / 1000 := by
    rw [nsdOf, hv2, hm2]
    push_cast
    rw [hsqrt]
    norm_num
  have hnum1 : numericPredictions (flattenStep [JSVal.jnum 100]) 100 = [100] := by
    simp [numericPredictions, flattenStep, jsToNumber]
  have hnum2 : numericPredictions (flattenStep
      [JSVal.jnum (999 / 10), JSVal.jnum (1001 / 10)]) 100 = [999 / 10, 1001 / 10] := by
    simp [numericPredictions, flattenStep, jsToNumber]
  have hc1 : confidenceOf ([100] : List ℚ) = some (1 / 2) := by
    unfold confidenceOf
    rw [if_neg (by norm_num)]
    norm_num
  have hc2 : confidenceOf [999 / 10, 1001 / 10] = some (0.95 : ℝ) := by
    unfold confidenceOf
    rw [if_pos (by norm_num), if_neg (show meanOf [999 / 10, 1001 / 10] ≠ 0 by
      rw [hm2]; norm_num), hn2]
    rw [show (1 : ℝ) - 1 / 1000 * 10 = 99 / 100 by norm_num]
    rw [min_eq_left (by norm_num), max_eq_right (by norm_num)]
  have h05 : round2R ((1 : ℝ) / 2) = (0.5 : ℝ) := by
    rw [round2R_eq_of (1 / 2) 50 (by norm_num) (by norm_num)]; norm_num
  have h95R : round2R (0.95 : ℝ) = (0.95 : ℝ) := by
    rw [round2R_eq_of 0.95 95 (by norm_num) (by norm_num)]; norm_num
  have hcf1 : (fetchStockPredictionCore "AAPL" "Apple Inc." 0
      [JSVal.jnum 100] 100).confidence = some (0.5 : ℝ) := by
    simp only [fetchStockPredictionCore, hnum1, hc1, Option.map_some', h05]
  have hcf2 : (fetchStockPredictionCore "AAPL" "Apple Inc." 0
      [JSVal.jnum (999 / 10), JSVal.jnum (1001 / 10)] 100).confidence
      = some (0.95 : ℝ) := by
    simp only [fetchStockPredictionCore, hnum2, hc2, Option.map_some', h95R]
  exact ⟨hcf0, by rw [hm1, hm2], by rw [hn1, hn2]; norm_num, hcf1, hcf2, by norm_num⟩

/-- Claim C9 (confirmed): for a user with an existing record whose stored
watchlist does not already hold the ticker more than once (the data model
keeps the watchlist a set), adding is idempotent: an add of a present ticker
returns success without touching the store, and two successive adds leave
the ticker appearing exactly once in the fetched watchlist. -/
theorem claim_C9 (store : String → Option UserDoc) (uid tk : String) (u : UserDoc)
    (hu : uid ≠ "") (hs : store uid = some u)
    (hcount : (u.watchlist.getD []).count tk ≤ 1) :
    ((u.watchlist.getD []).contains tk = true → addToWatchlist store uid tk = (store, true))
    ∧ (fetchWatchlist (addToWatchlist (addToWatchlist store uid tk).1 uid tk).1 uid).count tk
        = 1 := by
  by_cases hc : (u.watchlist.getD []).contains tk = true
  · have hadd : addToWatchlist store uid tk = (store, true) := by
      unfold addToWatchlist
      rw [if_neg hu, hs]
      simp only [hc, if_true]
    refine ⟨fun _ => hadd, ?_⟩
    rw [hadd]
    simp only
    rw [hadd]
    simp only [fetchWatchlist, if_neg hu, hs]
    have hmem : tk ∈ u.watchlist.getD [] := List.elem_iff.mp hc
    have h1 : 1 ≤ (u.watchlist.getD []).count tk := List.count_pos_iff.mpr hmem
    omega
  · have hc0 : (u.watchlist.getD []).contains tk = false := by
      cases hb : (u.watchlist.getD []).contains tk
      · rfl
      · exact absurd hb hc
    have hnmem : tk ∉ u.watchlist.getD [] := fun hm => hc (List.elem_iff.mpr hm)
    have h0 : (u.watchlist.getD []).count tk = 0 := List.count_eq_zero.mpr hnmem
    have hadd1 : addToWatchlist store uid tk
        = (setUser store uid { watchlist := some (u.watchlist.getD [] ++ [tk]) }, true) := by
      unfold addToWatchlist
      rw [if_neg hu, hs]
      simp only [hc0, Bool.false_eq_true, if_false]
    refine ⟨fun hcon => absurd hcon hc, ?_⟩
    rw [hadd1]
    simp only
    have hlook : setUser store uid { watchlist := some (u.watchlist.getD [] ++ [tk]) } uid
        = some { watchlist := some (u.watchlist.getD [] ++ [tk]) } := by
      simp [setUser]
    have hc2 : ((u.watchlist.getD [] ++ [tk]).contains tk) = true :=
      List.elem_iff.mpr (List.mem_append_right _ (List.mem_singleton.mpr rfl))
    have hadd2 : addToWatchlist
        (setUser store uid { watchlist := some (u.watchlist.getD [] ++ [tk]) }) uid tk
        = (setUser store uid { watchlist := some (u.watchlist.getD [] ++ [tk]) }, true) := by
      unfold addToWatchlist
      rw [if_neg hu, hlook]
      simp only [Option.getD_some, hc2, if_true]
    rw [hadd2]
    simp only [fetchWatchlist, if_neg hu, hlook]
    simp [List.count_append, h0]

/-- Witness for claim C9: a user whose stored watchlist is `["AAPL"]`; after
two adds of "TSLA" the fetched watchlist holds "TSLA" exactly once. -/
theorem claim_C9_witness :
    ("u1" : String) ≠ ""
    ∧ ((fun uid => if uid = "u1" then some (UserDoc.mk (some ["AAPL"])) else none) "u1"
        = some (UserDoc.mk (some ["AAPL"])))
    ∧ ((UserDoc.mk (some ["AAPL"])).watchlist.getD []).count "TSLA" ≤ 1
    ∧ (fetchWatchlist (addToWatchlist (addToWatchlist
        (fun uid => if uid = "u1" then some (UserDoc.mk (some ["AAPL"])) else none)
        "u1" "TSLA").1 "u1" "TSLA").1 "u1").count "TSLA" = 1 :=
  ⟨by decide, rfl, by decide,
   (claim_C9 (fun uid => if uid = "u1" then some (UserDoc.mk (some ["AAPL"])) else none)
     "u1" "TSLA" (UserDoc.mk (some ["AAPL"])) (by decide) rfl (by decide)).2⟩

/-- Witness for claim C10: a record stored a full year ago (now is one year
of milliseconds later) with an unrecognized `lastUpdated` shape is still
served as fresh. -/
theorem claim_C10_witness :
    (StoredDoc.mk (some LastUpdatedVal.tsUnknown) 10 11 1 none).lastUpdated
        = some LastUpdatedVal.tsUnknown
    ∧ cacheStillValid 31536000000
        (parseLastUpdated 31536000000
          (StoredDoc.mk (some LastUpdatedVal.tsUnknown) 10 11 1 none).lastUpdated) = true :=
  ⟨rfl, (claim_C10 31536000000 "AAPL"
    (StoredDoc.mk (some LastUpdatedVal.tsUnknown) 10 11 1 none) rfl).2.1⟩

end TIKR
